import Mathlib

/-!
# Verification of the wger schedule resolver and log views

Shallow embedding of the schedule data model and its operations
(`get_end_date`, `get_current_scheduled_workout`, `get_current_workout`,
schedule save/activate) together with the workout-session handling of the
log views (`add`, `calendar`).

Dates are represented as integer day numbers (days of the proleptic
Gregorian calendar counted from the Unix epoch); a week is 7 days.
Python's floor division `//` and floor modulo `%` on integers are
`Int.fdiv` and, for a positive divisor, `Int.emod` (both agree with
Python's `%` there, returning a value in `[0, divisor)`).
-/

namespace Wger

/-- One phase of a schedule: a workout reference, a duration in whole
weeks and an explicit position in the sequence. -/
structure ScheduleStep where
  workout : Nat
  duration : Nat
  order : Nat
deriving DecidableEq, Repr

/-- A schedule: a named, ordered sequence of steps with a start date,
belonging to one user.  The `steps` list is the schedule's steps in
their explicit order. -/
structure Schedule where
  user : Nat
  name : String
  start_date : Int
  is_active : Bool
  is_loop : Bool
  steps : List ScheduleStep
deriving DecidableEq, Repr

/-- The durations of a list of steps, in order. -/
def stepDurations (l : List ScheduleStep) : List Nat :=
  l.map (fun s => s.duration)

/-- Total duration of a list of steps, in weeks. -/
def totalDuration (l : List ScheduleStep) : Nat :=
  (stepDurations l).sum

/-- Day number of a proleptic Gregorian civil date (days since
1970-01-01), via the standard civil-from-days conversion. -/
def daysFromCivil (y m d : Int) : Int :=
  let y := if m ≤ 2 then y - 1 else y
  let era := (if 0 ≤ y then y else y - 399).fdiv 400
  let yoe := y - era * 400
  let doy := (153 * (m + (if 2 < m then -3 else 9)) + 2).fdiv 5 + d - 1
  let doe := yoe * 365 + yoe.fdiv 4 - yoe.fdiv 100 + doy
  era * 146097 + doe - 719468

/-- Day of the month of a day number (the `.day` attribute of a date),
via the standard days-to-civil conversion. -/
def civilDayOfMonth (z : Int) : Int :=
  let z := z + 719468
  let era := (if 0 ≤ z then z else z - 146096).fdiv 146097
  let doe := z - era * 146097
  let yoe := (doe - doe.fdiv 1460 + doe.fdiv 36524 - doe.fdiv 146096).fdiv 365
  let doy := doe - (365 * yoe + yoe.fdiv 4 - yoe.fdiv 100)
  let mp := (5 * doy + 2).fdiv 153
  doy - (153 * mp + 2).fdiv 5 + 1

/-- Modelled from the spec: `get_end_date` (the implementation lives in
`wger/manager/models.py`, which is not part of the excerpt; only its
tests are).  A loop schedule has no end date; otherwise the end date is
the start date plus the sum of the step durations, in weeks. -/
def get_end_date (sch : Schedule) : Option Int :=
  if sch.is_loop then none
  else some (sch.start_date + 7 * (totalDuration sch.steps : Int))

/-- Whole weeks elapsed between the schedule's start date and the
evaluation date (floor division, as Python's `//`). -/
def elapsedWeeks (sch : Schedule) (asOf : Int) : Int :=
  (asOf - sch.start_date).fdiv 7

/-- Modelled from the spec: the walk over the ordered steps that
resolves a position (in weeks) to a step.  The spec's prose boundary
sentence (half-open spans) contradicts the spec's own concrete examples
and the tests in `src/wger/manager/tests/test_schedule.py`
(`test_get_workout_steps_test_3`: steps [3,1,2], elapsed 4 → second
step); the examples and tests are followed: the walk returns the first
step whose cumulative end is ≥ the position, so a position exactly at a
step's cumulative end belongs to that (ending) step. -/
def findStep : List ScheduleStep → Int → Option ScheduleStep
  | [], _ => none
  | s :: rest, pos =>
      if pos ≤ (s.duration : Int) then some s
      else findStep rest (pos - (s.duration : Int))

/-- Modelled from the spec: `get_current_scheduled_workout` (the
implementation lives in `wger/manager/models.py`, not in the excerpt).
No steps → none.  Loop: walk at `elapsed mod total` (none if the total
is 0).  Non-loop: none if elapsed is negative, otherwise walk at the
raw elapsed value (which yields none past the total duration). -/
def get_current_scheduled_workout (sch : Schedule) (asOf : Int) :
    Option ScheduleStep :=
  if sch.steps = [] then none
  else if sch.is_loop then
    let total : Int := (totalDuration sch.steps : Int)
    if total = 0 then none
    else findStep sch.steps (elapsedWeeks sch asOf % total)
  else
    let e := elapsedWeeks sch asOf
    if e < 0 then none
    else findStep sch.steps e

/-- Cumulative duration (in weeks) of the steps strictly before
position `i` in the list: the start of step `i`'s span. -/
def cumStart (l : List ScheduleStep) (i : Nat) : Int :=
  ((totalDuration (l.take i) : Nat) : Int)

/-! ## Persisted schedules: save and activate

The schedule table is modelled as a list of rows keyed by primary key.
-/

/-- A row of the schedule table: primary key paired with the record. -/
abbrev ScheduleRow := Nat × Schedule

/-- Modelled from the spec: saving a schedule (the overridden
`Schedule.save` lives in `wger/manager/models.py`, not in the excerpt;
`test_schedule_active` in `src` exercises it).  The row `pk` is
replaced by (or inserted as) `s`; when `s.is_active` is true every
other schedule of the same user is deactivated in the same step. -/
def saveSchedule (db : List ScheduleRow) (pk : Nat) (s : Schedule) :
    List ScheduleRow :=
  ((db.filter (fun r => r.1 ≠ pk)).map
    (fun r =>
      if s.is_active ∧ r.2.user = s.user then
        (r.1, { r.2 with is_active := false })
      else r)) ++ [(pk, s)]

/-- The rows of `db` that are active schedules of user `u`. -/
def activeRows (db : List ScheduleRow) (u : Nat) : List ScheduleRow :=
  db.filter (fun r => r.2.user = u ∧ r.2.is_active = true)

/-- Modelled from the spec: the start (activate) operation on the
schedule with key `pk` (the view lives outside the excerpt;
`start_schedule` in `src` exercises it).  It sets `is_active := true`
and `start_date := today` and saves, which deactivates the user's other
schedules. -/
def activate (db : List ScheduleRow) (pk : Nat) (today : Int) :
    List ScheduleRow :=
  match db.find? (fun r => r.1 = pk) with
  | none => db
  | some r =>
      saveSchedule db pk { r.2 with is_active := true, start_date := today }

/-! ## Workouts and `get_current_workout` -/

/-- A workout, with its owner and creation date. -/
structure Workout where
  id : Nat
  user : Nat
  creation_date : Int
deriving DecidableEq, Repr

/-- A workout is standalone when no schedule step of any schedule in
the table references it. -/
def isStandalone (db : List ScheduleRow) (w : Workout) : Prop :=
  ∀ r ∈ db, ∀ st ∈ r.2.steps, st.workout ≠ w.id

instance (db : List ScheduleRow) (w : Workout) :
    Decidable (isStandalone db w) := by
  unfold isStandalone; infer_instance

/-- Keep whichever of the accumulated workout and the next workout was
created later (the next one on a tie). -/
def pickLater (acc : Option Workout) (w : Workout) : Option Workout :=
  match acc with
  | none => some w
  | some v => if v.creation_date ≤ w.creation_date then some w else some v

/-- The most recently created workout of a list (later creation dates
win; on a tie the later element of the list wins). -/
def mostRecent (ws : List Workout) : Option Workout :=
  ws.foldl pickLater none

/-- The fallback workout of user `u`: the most recently created
standalone workout of `u`. -/
def fallbackWorkout (db : List ScheduleRow) (ws : List Workout) (u : Nat) :
    Option Workout :=
  mostRecent (ws.filter (fun w => w.user = u ∧ isStandalone db w))

/-- The active schedule of user `u` (the first active row; the
uniqueness invariant makes it the only one). -/
def activeSchedule (db : List ScheduleRow) (u : Nat) : Option Schedule :=
  ((activeRows db u).map (fun r => r.2)).head?

/-- Modelled from the spec: `get_current_workout` (a manager method in
`wger/manager/models.py`, not in the excerpt; called from the
`calendar` view in `src`).  If the user's active schedule resolves to a
current step, that step's workout is returned together with the
schedule; otherwise the fallback workout (and no schedule). -/
def get_current_workout (db : List ScheduleRow) (ws : List Workout)
    (u : Nat) (asOf : Int) : Option Nat × Option Schedule :=
  match activeSchedule db u with
  | some sch =>
      match get_current_scheduled_workout sch asOf with
      | some step => (some step.workout, some sch)
      | none => ((fallbackWorkout db ws u).map (fun w => w.id), none)
  | none => ((fallbackWorkout db ws u).map (fun w => w.id), none)

/-! ## Workout sessions and the log views -/

/-- A workout session's impression of the workout.  Modelled from the
spec: the `WorkoutSession` model (outside the excerpt) stores one of
the three constants `IMPRESSION_BAD`, `IMPRESSION_NEUTRAL`,
`IMPRESSION_GOOD` used by the `calendar` view in `src`. -/
inductive Impression where
  | bad
  | neutral
  | good
deriving DecidableEq, Repr

/-- A workout session: one per user and date, with an impression and
free-text notes. -/
structure WorkoutSession where
  user : Nat
  date : Int
  workout : Nat
  impression : Impression
  notes : String
deriving DecidableEq, Repr

/-- The fields of `HelperWorkoutSessionForm` that a POST supplies (the
form class is outside the excerpt; the `add` view in `src` applies it). -/
structure SessionFormData where
  impression : Impression
  notes : String
deriving DecidableEq, Repr

/-- Applying the session form's cleaned data to a session instance. -/
def applyForm (f : SessionFormData) (s : WorkoutSession) : WorkoutSession :=
  { s with impression := f.impression, notes := f.notes }

/-- The session-saving part of the `add` view
(`src/wger/manager/views/log.py`, lines 192-208): if a session for the
requesting user and the submitted date already exists, the form is
rebound to that instance and saving updates it in place; only when none
exists is a new session created, with the date, user and the day's
workout filled in.  (`objects.get` returns the unique matching row;
under the one-session-per-user-and-date invariant the map below updates
exactly that row.) -/
def addViewSaveSession (sessions : List WorkoutSession) (u : Nat)
    (logDate : Int) (dayWorkout : Nat) (f : SessionFormData) :
    List WorkoutSession :=
  if sessions.any (fun s => s.user = u ∧ s.date = logDate) then
    sessions.map
      (fun s => if s.user = u ∧ s.date = logDate then applyForm f s else s)
  else
    sessions ++
      [{ user := u, date := logDate, workout := dayWorkout,
         impression := f.impression, notes := f.notes }]

/-- A workout log entry (one exercise set on one date). -/
structure WorkoutLog where
  user : Nat
  date : Int
  workout : Nat
  exercise : Nat
deriving DecidableEq, Repr

/-- Modelled from the spec: `WorkoutLog.get_workout_session` (in
`wger/manager/models.py`, outside the excerpt) returns the workout
session of the log's user on the log's date, if any. -/
def get_workout_session (sessions : List WorkoutSession)
    (log : WorkoutLog) : Option WorkoutSession :=
  sessions.find? (fun s => s.user = log.user ∧ s.date = log.date)

/-- One entry of the calendar's per-day dictionary. -/
structure DayEntry where
  impression : Impression
  log : WorkoutLog
deriving DecidableEq, Repr

/-- Python dict assignment `m[k] = v`: replace the value at `k`, or
insert the key. -/
def dictUpsert (m : List (Int × DayEntry)) (k : Int) (v : DayEntry) :
    List (Int × DayEntry) :=
  if m.any (fun p => p.1 = k) then
    m.map (fun p => if p.1 = k then (k, v) else p)
  else m ++ [(k, v)]

/-- One iteration of the grouping loop of the `calendar` view
(`src/wger/manager/views/log.py`, lines 395-408): the log is stored
under its date's day of month, with the impression of the log's
session, or `IMPRESSION_NEUTRAL` when the log has no session. -/
def calendarStep (sessions : List WorkoutSession)
    (m : List (Int × DayEntry)) (log : WorkoutLog) :
    List (Int × DayEntry) :=
  let impr :=
    match get_workout_session sessions log with
    | some s => s.impression
    | none => Impression.neutral
  dictUpsert m (civilDayOfMonth log.date) { impression := impr, log := log }

/-- The grouping loop of the `calendar` view over all logs of the
month.  (The source guards the loop body with
`log.date not in logs_filtered`, which compares a date object against
the dictionary's integer day keys and therefore never holds a key, so
the body runs for every log.) -/
def buildLogsFiltered (sessions : List WorkoutSession)
    (logs : List WorkoutLog) : List (Int × DayEntry) :=
  logs.foldl (calendarStep sessions) []

/-- The background-class selection of `WorkoutCalendar.formatday`
(`src/wger/manager/views/log.py`, lines 326-333): bad → `btn-danger`,
good → `btn-success`, anything else → `btn-warning`. -/
def backgroundCss (i : Impression) : String :=
  if i = Impression.bad then "btn-danger"
  else if i = Impression.good then "btn-success"
  else "btn-warning"

/-! ## Demonstration schedules (the concrete inputs of the tests) -/

/-- First step of the three-step demonstration schedule: 3 weeks. -/
def demoStep1 : ScheduleStep := ⟨1, 3, 1⟩

/-- Second step of the three-step demonstration schedule: 1 week. -/
def demoStep2 : ScheduleStep := ⟨2, 1, 2⟩

/-- Third step of the three-step demonstration schedule: 2 weeks. -/
def demoStep3 : ScheduleStep := ⟨3, 2, 3⟩

/-- The three-step schedule of the tests (durations 3, 1, 2 in orders
1, 2, 3), with a given start date and loop flag. -/
def demoSchedule (startDate : Int) (loop : Bool) : Schedule :=
  { user := 2, name := "temp", start_date := startDate, is_active := true,
    is_loop := loop, steps := [demoStep1, demoStep2, demoStep3] }

/-- The end-date test schedule: steps of 3, 5 and 2 weeks starting on
2013-04-21, not a loop. -/
def demoEndSchedule : Schedule :=
  { user := 1, name := "end", start_date := daysFromCivil 2013 4 21,
    is_active := true, is_loop := false,
    steps := [⟨1, 3, 1⟩, ⟨2, 5, 2⟩, ⟨3, 2, 3⟩] }

/-! ## Lemmas about the step walk -/

theorem totalDuration_nil : totalDuration [] = 0 := rfl

theorem totalDuration_cons (s : ScheduleStep) (l : List ScheduleStep) :
    totalDuration (s :: l) = s.duration + totalDuration l := by
  simp [totalDuration, stepDurations]

theorem cumStart_zero (l : List ScheduleStep) : cumStart l 0 = 0 := by
  simp [cumStart, totalDuration, stepDurations]

theorem cumStart_cons_succ (t : ScheduleStep) (rest : List ScheduleStep)
    (i : Nat) :
    cumStart (t :: rest) (i + 1) = (t.duration : Int) + cumStart rest i := by
  simp [cumStart, List.take_succ_cons, totalDuration_cons]

/-- On a non-empty step list the walk returns `none` exactly when the
position lies strictly past the total duration (for non-negative
positions). -/
theorem findStep_eq_none_iff {l : List ScheduleStep} {pos : Int}
    (hpos : 0 ≤ pos) (hl : l ≠ []) :
    findStep l pos = none ↔ (totalDuration l : Int) < pos := by
  induction l generalizing pos with
  | nil => exact absurd rfl hl
  | cons s rest ih =>
      have hc : (totalDuration (s :: rest) : Int) =
          (s.duration : Int) + (totalDuration rest : Int) := by
        rw [totalDuration_cons, Nat.cast_add]
      by_cases h : pos ≤ (s.duration : Int)
      · simp only [findStep, if_pos h]
        have : ¬ (totalDuration (s :: rest) : Int) < pos := by
          have : (0 : Int) ≤ (totalDuration rest : Int) := Int.natCast_nonneg _
          omega
        simp [this]
      · simp only [findStep, if_neg h]
        cases rest with
        | nil =>
            have htn : (totalDuration ([] : List ScheduleStep) : Int) = 0 := by
              simp [totalDuration_nil]
            constructor
            · intro _
              omega
            · intro _
              rfl
        | cons t rest2 =>
            rw [ih (by omega) (by simp), hc]
            omega

/-- Shifting the position past a prefix of the walk (for strictly
positive remainders). -/
theorem findStep_append {l₁ l₂ : List ScheduleStep} {p : Int}
    (hp : 0 < p) :
    findStep (l₁ ++ l₂) ((totalDuration l₁ : Int) + p) = findStep l₂ p := by
  induction l₁ with
  | nil => simp [totalDuration_nil]
  | cons s rest ih =>
      have hc : (totalDuration (s :: rest) : Int) =
          (s.duration : Int) + (totalDuration rest : Int) := by
        rw [totalDuration_cons, Nat.cast_add]
      have hd : ¬ ((totalDuration (s :: rest) : Int) + p ≤ (s.duration : Int)) := by
        have : (0 : Int) ≤ (totalDuration rest : Int) := Int.natCast_nonneg _
        omega
      simp only [List.cons_append, findStep, if_neg hd]
      have harg : (totalDuration (s :: rest) : Int) + p - (s.duration : Int) =
          (totalDuration rest : Int) + p := by omega
      rw [harg]
      exact ih

/-- A position exactly at a step's cumulative end resolves to that
(ending) step, provided the step lasts at least one week. -/
theorem findStep_boundary {l₁ l₂ : List ScheduleStep} {s : ScheduleStep}
    (hd : 1 ≤ s.duration) :
    findStep (l₁ ++ s :: l₂)
      ((totalDuration l₁ : Int) + (s.duration : Int)) = some s := by
  rw [findStep_append (by exact_mod_cast hd)]
  simp [findStep]

/-- The step returned by the walk contains the position in its
cumulative-duration span. -/
theorem findStep_span {l : List ScheduleStep} {pos : Int} {s : ScheduleStep}
    (hpos : 0 ≤ pos) (h : findStep l pos = some s) :
    ∃ i, ∃ hi : i < l.length, s = l.get ⟨i, hi⟩ ∧
      cumStart l i ≤ pos ∧ pos ≤ cumStart l i + (s.duration : Int) := by
  induction l generalizing pos with
  | nil => simp [findStep] at h
  | cons t rest ih =>
      by_cases hle : pos ≤ (t.duration : Int)
      · simp only [findStep, if_pos hle] at h
        obtain rfl : t = s := Option.some.inj h
        refine ⟨0, by simp, rfl, ?_, ?_⟩
        · rw [cumStart_zero]; exact hpos
        · rw [cumStart_zero]; omega
      · simp only [findStep, if_neg hle] at h
        obtain ⟨i, hi, hs, h1, h2⟩ := ih (by omega) h
        refine ⟨i + 1, by simpa using Nat.succ_lt_succ hi, ?_, ?_, ?_⟩
        · simpa [List.get_cons_succ] using hs
        · rw [cumStart_cons_succ]; omega
        · rw [cumStart_cons_succ]; omega

/-- A schedule with positive total duration has at least one step. -/
theorem steps_ne_nil_of_total_pos {l : List ScheduleStep}
    (h : 0 < totalDuration l) : l ≠ [] := by
  intro he
  rw [he, totalDuration_nil] at h
  exact Nat.lt_irrefl 0 h

/-- Unfolding the non-loop branch of the resolver. -/
theorem gcsw_nonloop (sch : Schedule) (asOf : Int)
    (hloop : sch.is_loop = false) (hs : sch.steps ≠ [])
    (he : ¬ elapsedWeeks sch asOf < 0) :
    get_current_scheduled_workout sch asOf =
      findStep sch.steps (elapsedWeeks sch asOf) := by
  simp [get_current_scheduled_workout, hloop, hs, he]

/-- Unfolding the loop branch of the resolver. -/
theorem gcsw_loop (sch : Schedule) (asOf : Int)
    (hloop : sch.is_loop = true) (hT : 0 < totalDuration sch.steps) :
    get_current_scheduled_workout sch asOf =
      findStep sch.steps
        (elapsedWeeks sch asOf % (totalDuration sch.steps : Int)) := by
  have hs : sch.steps ≠ [] := steps_ne_nil_of_total_pos hT
  have hT0 : ¬ ((totalDuration sch.steps : Int) = 0) := by
    exact_mod_cast Nat.pos_iff_ne_zero.mp hT
  simp [get_current_scheduled_workout, hloop, hs, hT0]

/-- The non-loop resolver yields `none` exactly for an empty step list,
a negative elapsed value, or an elapsed value strictly past the total
duration. -/
theorem gcsw_nonloop_none_iff (sch : Schedule) (asOf : Int)
    (hloop : sch.is_loop = false) :
    get_current_scheduled_workout sch asOf = none ↔
      sch.steps = [] ∨ elapsedWeeks sch asOf < 0 ∨
        (totalDuration sch.steps : Int) < elapsedWeeks sch asOf := by
  by_cases hs : sch.steps = []
  · simp [get_current_scheduled_workout, hs]
  · by_cases he : elapsedWeeks sch asOf < 0
    · simp [get_current_scheduled_workout, hloop, hs, he]
    · rw [gcsw_nonloop sch asOf hloop hs he,
        findStep_eq_none_iff (by omega) hs]
      simp [hs, he]

/-! ## Claim theorems: the end date and the resolver -/

/-- C2: `get_end_date` returns none for a loop schedule regardless of
steps; for a non-loop schedule it returns the start date plus the sum
of the step durations in weeks, in particular the start date itself for
zero steps; and steps of 3, 5 and 2 weeks starting 2013-04-21 end on
2013-06-30. -/
theorem get_end_date_spec (sch : Schedule) :
    (sch.is_loop = true → get_end_date sch = none) ∧
    (sch.is_loop = false →
      get_end_date sch =
        some (sch.start_date + 7 * (totalDuration sch.steps : Int))) ∧
    (sch.is_loop = false → sch.steps = [] →
      get_end_date sch = some sch.start_date) ∧
    get_end_date demoEndSchedule = some (daysFromCivil 2013 6 30) := by
  refine ⟨?_, ?_, ?_, ?_⟩
  · intro h
    simp [get_end_date, h]
  · intro h
    simp [get_end_date, h]
  · intro h hs
    simp [get_end_date, h, hs, totalDuration_nil]
  · decide

/-- C2 witness: a concrete loop schedule has no end date, and the
concrete 2013 schedule ends on 2013-06-30. -/
theorem get_end_date_spec_witness :
    (demoSchedule 0 true).is_loop = true ∧
    get_end_date (demoSchedule 0 true) = none ∧
    get_end_date demoEndSchedule = some (daysFromCivil 2013 6 30) :=
  ⟨rfl, (get_end_date_spec (demoSchedule 0 true)).1 rfl,
    (get_end_date_spec (demoSchedule 0 true)).2.2.2⟩

/-- C3 counterexample: an elapsed value exactly at the cumulative sum
ending the first step (elapsed = 3 on steps [3,1,2]) resolves to the
first (ending) step, not to the next one, so the claim's half-open
boundary rule fails on the code. -/
theorem step_boundary_cex :
    elapsedWeeks (demoSchedule (-21) false) 0 = 3 ∧
    get_current_scheduled_workout (demoSchedule (-21) false) 0 =
      some demoStep1 ∧
    demoStep1 ≠ demoStep2 := by
  decide

/-- C3 (amended): each step occupies the span
`(cumulative_start, cumulative_start + duration]` in weeks, so an
elapsed value exactly equal to the cumulative sum ending a step belongs
to that (ending) step; concretely, for non-loop steps of durations
[3,1,2] starting 4 weeks before the evaluation date, the operation
returns the second step (duration 1), since elapsed = 4 lies in
(3,4]. -/
theorem step_boundary_spec :
    (∀ (l₁ l₂ : List ScheduleStep) (s : ScheduleStep), 1 ≤ s.duration →
      findStep (l₁ ++ s :: l₂)
        ((totalDuration l₁ : Int) + (s.duration : Int)) = some s) ∧
    (∀ t : Int,
      get_current_scheduled_workout (demoSchedule (t - 28) false) t =
        some demoStep2) := by
  constructor
  · intro l₁ l₂ s hd
    exact findStep_boundary hd
  · intro t
    have he : elapsedWeeks (demoSchedule (t - 28) false) t = 4 := by
      show (t - (t - 28)).fdiv 7 = 4
      rw [show t - (t - 28) = (28 : Int) by ring]
      decide
    have hs : (demoSchedule (t - 28) false).steps ≠ [] := by
      show ([demoStep1, demoStep2, demoStep3] : List ScheduleStep) ≠ []
      decide
    have hneg : ¬ elapsedWeeks (demoSchedule (t - 28) false) t < 0 := by
      rw [he]; decide
    rw [gcsw_nonloop _ _ rfl hs hneg, he]
    show findStep [demoStep1, demoStep2, demoStep3] 4 = some demoStep2
    decide

/-- C3 witness: the boundary rule applied at the second demo step, and
the concrete four-weeks-ago schedule resolving to the second step. -/
theorem step_boundary_spec_witness :
    1 ≤ demoStep2.duration ∧
    findStep ([demoStep1] ++ demoStep2 :: [demoStep3])
      ((totalDuration [demoStep1] : Int) + (demoStep2.duration : Int)) =
        some demoStep2 ∧
    get_current_scheduled_workout (demoSchedule ((0 : Int) - 28) false) 0 =
      some demoStep2 :=
  ⟨by decide,
    step_boundary_spec.1 [demoStep1] [demoStep3] demoStep2 (by decide),
    step_boundary_spec.2 0⟩

/-- C4 counterexample: on steps [3,1,2] with elapsed exactly equal to
the total duration (6), the non-loop resolver still returns the last
step, so "none when elapsed is at least the total" fails on the
code. -/
theorem nonloop_none_cex :
    elapsedWeeks (demoSchedule (-42) false) 0 = 6 ∧
    (totalDuration (demoSchedule (-42) false).steps : Int) = 6 ∧
    get_current_scheduled_workout (demoSchedule (-42) false) 0 =
      some demoStep3 := by
  decide

/-- C4 (amended): for every non-loop schedule the resolver returns none
exactly when the schedule has no steps, or the elapsed whole weeks
since the start date are negative, or the elapsed value strictly
exceeds the total duration of all steps; concretely, steps [3,1,2]
starting 7 weeks before the evaluation date yield none because
elapsed = 7 exceeds the total of 6. -/
theorem nonloop_none_spec :
    (∀ (sch : Schedule) (asOf : Int), sch.is_loop = false →
      (get_current_scheduled_workout sch asOf = none ↔
        sch.steps = [] ∨ elapsedWeeks sch asOf < 0 ∨
          (totalDuration sch.steps : Int) < elapsedWeeks sch asOf)) ∧
    (∀ t : Int,
      get_current_scheduled_workout (demoSchedule (t - 49) false) t =
        none) := by
  constructor
  · intro sch asOf hloop
    exact gcsw_nonloop_none_iff sch asOf hloop
  · intro t
    have he : elapsedWeeks (demoSchedule (t - 49) false) t = 7 := by
      show (t - (t - 49)).fdiv 7 = 7
      rw [show t - (t - 49) = (49 : Int) by ring]
      decide
    refine (gcsw_nonloop_none_iff _ _ rfl).mpr ?_
    right; right
    rw [he]
    show ((totalDuration [demoStep1, demoStep2, demoStep3] : Nat) : Int) < 7
    decide

/-- C4 witness: the concrete seven-weeks-ago schedule yields none, via
the amended characterisation. -/
theorem nonloop_none_spec_witness :
    (demoSchedule ((0 : Int) - 49) false).is_loop = false ∧
    get_current_scheduled_workout (demoSchedule ((0 : Int) - 49) false) 0 =
      none :=
  ⟨rfl, nonloop_none_spec.2 0⟩

/-- C5: for a loop schedule with positive total duration T the
resolver computes position = elapsed mod T, which is non-negative and
below T, walks the steps at that position, and the returned step's
cumulative-duration span contains the position; concretely, steps
[3,1,2] starting 7 weeks before the evaluation date give position
7 mod 6 = 1, inside the first step's span, so the first step is
returned. -/
theorem loop_mod_resolution (sch : Schedule) (asOf : Int)
    (hloop : sch.is_loop = true) (hT : 0 < totalDuration sch.steps) :
    0 ≤ elapsedWeeks sch asOf % (totalDuration sch.steps : Int) ∧
    elapsedWeeks sch asOf % (totalDuration sch.steps : Int) <
      (totalDuration sch.steps : Int) ∧
    get_current_scheduled_workout sch asOf =
      findStep sch.steps
        (elapsedWeeks sch asOf % (totalDuration sch.steps : Int)) ∧
    (∀ s, get_current_scheduled_workout sch asOf = some s →
      ∃ i, ∃ hi : i < sch.steps.length, s = sch.steps.get ⟨i, hi⟩ ∧
        cumStart sch.steps i ≤
          elapsedWeeks sch asOf % (totalDuration sch.steps : Int) ∧
        elapsedWeeks sch asOf % (totalDuration sch.steps : Int) ≤
          cumStart sch.steps i + (s.duration : Int)) ∧
    (∀ t : Int,
      elapsedWeeks (demoSchedule (t - 49) true) t %
        (totalDuration (demoSchedule (t - 49) true).steps : Int) = 1 ∧
      get_current_scheduled_workout (demoSchedule (t - 49) true) t =
        some demoStep1) := by
  have hT0 : ((totalDuration sch.steps : Int)) ≠ 0 := by
    exact_mod_cast Nat.pos_iff_ne_zero.mp hT
  have hTpos : (0 : Int) < (totalDuration sch.steps : Int) := by
    exact_mod_cast hT
  have hnonneg : 0 ≤ elapsedWeeks sch asOf % (totalDuration sch.steps : Int) :=
    Int.emod_nonneg _ hT0
  have hlt : elapsedWeeks sch asOf % (totalDuration sch.steps : Int) <
      (totalDuration sch.steps : Int) :=
    Int.emod_lt_of_pos _ hTpos
  refine ⟨hnonneg, hlt, gcsw_loop sch asOf hloop hT, ?_, ?_⟩
  · intro s hsome
    rw [gcsw_loop sch asOf hloop hT] at hsome
    exact findStep_span hnonneg hsome
  · intro t
    have he : elapsedWeeks (demoSchedule (t - 49) true) t = 7 := by
      show (t - (t - 49)).fdiv 7 = 7
      rw [show t - (t - 49) = (49 : Int) by ring]
      decide
    have htot : ((totalDuration (demoSchedule (t - 49) true).steps : Nat) : Int)
        = 6 := by
      show ((totalDuration [demoStep1, demoStep2, demoStep3] : Nat) : Int) = 6
      decide
    constructor
    · rw [he, htot]
      decide
    · have hT' : 0 < totalDuration (demoSchedule (t - 49) true).steps := by
        show 0 < totalDuration [demoStep1, demoStep2, demoStep3]
        decide
      rw [gcsw_loop _ _ rfl hT', he, htot]
      show findStep [demoStep1, demoStep2, demoStep3] ((7 : Int) % 6) =
        some demoStep1
      decide

/-- C5 witness: the loop resolution applied to the concrete demo loop
schedule started 7 weeks before day 0. -/
theorem loop_mod_resolution_witness :
    (demoSchedule (-49) true).is_loop = true ∧
    0 < totalDuration (demoSchedule (-49) true).steps ∧
    get_current_scheduled_workout (demoSchedule (-49) true) 0 =
      findStep (demoSchedule (-49) true).steps
        (elapsedWeeks (demoSchedule (-49) true) 0 %
          (totalDuration (demoSchedule (-49) true).steps : Int)) :=
  ⟨rfl, by decide,
    (loop_mod_resolution (demoSchedule (-49) true) 0 rfl (by decide)).2.2.1⟩

/-- C6: for every loop schedule with positive total duration T, the
resolver is periodic with period T weeks: evaluating at `asOf` and at
`asOf + 7 T` days yields the same step. -/
theorem loop_periodicity (sch : Schedule) (asOf : Int)
    (hloop : sch.is_loop = true) (hT : 0 < totalDuration sch.steps) :
    get_current_scheduled_workout sch
        (asOf + 7 * (totalDuration sch.steps : Int)) =
      get_current_scheduled_workout sch asOf := by
  have he : elapsedWeeks sch (asOf + 7 * (totalDuration sch.steps : Int)) =
      elapsedWeeks sch asOf + (totalDuration sch.steps : Int) := by
    show (asOf + 7 * (totalDuration sch.steps : Int) - sch.start_date).fdiv 7 =
      (asOf - sch.start_date).fdiv 7 + (totalDuration sch.steps : Int)
    rw [show asOf + 7 * (totalDuration sch.steps : Int) - sch.start_date =
        (asOf - sch.start_date) + (totalDuration sch.steps : Int) * 7 by ring,
      Int.fdiv_eq_ediv _ (by norm_num), Int.fdiv_eq_ediv _ (by norm_num),
      Int.add_mul_ediv_right _ _ (by norm_num : (7 : Int) ≠ 0)]
  rw [gcsw_loop sch _ hloop hT, gcsw_loop sch asOf hloop hT, he,
    show elapsedWeeks sch asOf + (totalDuration sch.steps : Int) =
      elapsedWeeks sch asOf + (totalDuration sch.steps : Int) * 1 by ring,
    Int.add_mul_emod_self_left]

/-- C6 witness: periodicity of the concrete demo loop schedule at day
0 with period 6 weeks. -/
theorem loop_periodicity_witness :
    (demoSchedule (-49) true).is_loop = true ∧
    0 < totalDuration (demoSchedule (-49) true).steps ∧
    get_current_scheduled_workout (demoSchedule (-49) true)
        (0 + 7 * (totalDuration (demoSchedule (-49) true).steps : Int)) =
      get_current_scheduled_workout (demoSchedule (-49) true) 0 :=
  ⟨rfl, by decide, loop_periodicity (demoSchedule (-49) true) 0 rfl (by decide)⟩

/-! ## Claim theorems: saving and activating schedules -/

/-- After a save of an active schedule, no other row of the same user
is active. -/
theorem saveSchedule_others_inactive (db : List ScheduleRow) (pk : Nat)
    (s : Schedule) (hact : s.is_active = true) :
    ∀ r ∈ saveSchedule db pk s, r.1 ≠ pk → r.2.user = s.user →
      r.2.is_active = false := by
  intro r hr hne huser
  unfold saveSchedule at hr
  rcases List.mem_append.mp hr with hmem | hmem
  · obtain ⟨r₀, hr₀, rfl⟩ := List.mem_map.mp hmem
    by_cases hc : s.is_active ∧ r₀.2.user = s.user
    · simp only [if_pos hc]
    · rw [if_neg hc] at huser ⊢
      exact absurd ⟨hact, huser⟩ hc
  · rw [List.mem_singleton] at hmem
    subst hmem
    exact absurd rfl hne

/-- After a save of an active schedule, the active rows of the saving
user are exactly the saved row. -/
theorem saveSchedule_active_rows (db : List ScheduleRow) (pk : Nat)
    (s : Schedule) (hact : s.is_active = true) :
    activeRows (saveSchedule db pk s) s.user = [(pk, s)] := by
  unfold activeRows saveSchedule
  rw [List.filter_append]
  have h1 : List.filter
      (fun r : ScheduleRow => decide (r.2.user = s.user ∧ r.2.is_active = true))
      ((db.filter (fun r => r.1 ≠ pk)).map
        (fun r =>
          if s.is_active ∧ r.2.user = s.user then
            (r.1, { r.2 with is_active := false })
          else r)) = [] := by
    rw [List.filter_eq_nil_iff]
    intro r hr
    obtain ⟨r₀, hr₀, rfl⟩ := List.mem_map.mp hr
    by_cases hc : s.is_active ∧ r₀.2.user = s.user
    · simp [if_pos hc]
    · rw [if_neg hc]
      simp only [decide_eq_true_eq, not_and]
      intro huser
      exact absurd ⟨hact, huser⟩ hc
  rw [h1]
  simp [hact]

/-- C1: for every schedule table, saving a schedule with
`is_active = true` deactivates every other schedule owned by the same
user, so that afterwards exactly one active schedule exists for that
user — the saved one. -/
theorem save_unique_active (db : List ScheduleRow) (pk : Nat) (s : Schedule)
    (hact : s.is_active = true) :
    activeRows (saveSchedule db pk s) s.user = [(pk, s)] ∧
    (∀ r ∈ saveSchedule db pk s, r.1 ≠ pk → r.2.user = s.user →
      r.2.is_active = false) ∧
    (activeRows (saveSchedule db pk s) s.user).length = 1 := by
  refine ⟨saveSchedule_active_rows db pk s hact,
    saveSchedule_others_inactive db pk s hact, ?_⟩
  rw [saveSchedule_active_rows db pk s hact]
  rfl

/-- C1 witness: activating schedule 2 (of user 2) while schedule 1 of
the same user is active leaves exactly the new row active. -/
theorem save_unique_active_witness :
    (demoSchedule 0 false).is_active = true ∧
    activeRows
        (saveSchedule [(1, demoSchedule 7 true)] 2 (demoSchedule 0 false))
        (demoSchedule 0 false).user = [(2, demoSchedule 0 false)] ∧
    (activeRows
        (saveSchedule [(1, demoSchedule 7 true)] 2 (demoSchedule 0 false))
        (demoSchedule 0 false).user).length = 1 :=
  ⟨rfl,
    (save_unique_active [(1, demoSchedule 7 true)] 2 (demoSchedule 0 false)
      rfl).1,
    (save_unique_active [(1, demoSchedule 7 true)] 2 (demoSchedule 0 false)
      rfl).2.2⟩

/-- C7: activating the schedule stored at key `pk` sets its
`is_active` flag and its start date to the activation day, and
deactivates every other schedule of the same owning user; in this
sequential model the save applies all of it in one step. -/
theorem activate_spec (db : List ScheduleRow) (pk : Nat) (today : Int)
    (row : ScheduleRow)
    (hfind : db.find? (fun r => r.1 = pk) = some row) :
    ((pk, { row.2 with is_active := true, start_date := today }) ∈
      activate db pk today) ∧
    ({ row.2 with is_active := true, start_date := today }).is_active
      = true ∧
    ({ row.2 with is_active := true, start_date := today }).start_date
      = today ∧
    (∀ r ∈ activate db pk today, r.1 ≠ pk → r.2.user = row.2.user →
      r.2.is_active = false) ∧
    activeRows (activate db pk today) row.2.user =
      [(pk, { row.2 with is_active := true, start_date := today })] := by
  have heq : activate db pk today =
      saveSchedule db pk
        { row.2 with is_active := true, start_date := today } := by
    unfold activate
    rw [hfind]
  refine ⟨?_, rfl, rfl, ?_, ?_⟩
  · rw [heq]
    unfold saveSchedule
    exact List.mem_append_right _ (List.mem_singleton.mpr rfl)
  · rw [heq]
    exact saveSchedule_others_inactive db pk _ rfl
  · rw [heq]
    exact saveSchedule_active_rows db pk _ rfl

/-- C7 witness: starting schedule 2 on day 3 in a table where schedule
1 of the same user is active. -/
theorem activate_spec_witness :
    ([(1, demoSchedule 7 true), (2, demoSchedule 0 false)].find?
        (fun r => r.1 = 2) = some (2, demoSchedule 0 false)) ∧
    ((2, { demoSchedule 0 false with is_active := true, start_date := 3 }) ∈
      activate [(1, demoSchedule 7 true), (2, demoSchedule 0 false)] 2 3) ∧
    activeRows (activate [(1, demoSchedule 7 true), (2, demoSchedule 0 false)] 2 3)
        (demoSchedule 0 false).user =
      [(2, { demoSchedule 0 false with is_active := true, start_date := 3 })] :=
  ⟨by decide,
    (activate_spec [(1, demoSchedule 7 true), (2, demoSchedule 0 false)] 2 3
      (2, demoSchedule 0 false) (by decide)).1,
    (activate_spec [(1, demoSchedule 7 true), (2, demoSchedule 0 false)] 2 3
      (2, demoSchedule 0 false) (by decide)).2.2.2.2⟩

/-! ## Claim theorems: the current workout -/

/-- The result of `pickLater` is one of its inputs and dominates both
creation dates. -/
theorem pickLater_dominates (a : Option Workout) (x : Workout) :
    ∃ v, pickLater a x = some v ∧
      x.creation_date ≤ v.creation_date ∧
      (∀ u, a = some u → u.creation_date ≤ v.creation_date) ∧
      (v = x ∨ a = some v) := by
  cases a with
  | none =>
      refine ⟨x, rfl, le_refl _, ?_, Or.inl rfl⟩
      intro u hu
      cases hu
  | some u =>
      by_cases hle : u.creation_date ≤ x.creation_date
      · refine ⟨x, ?_, le_refl _, ?_, Or.inl rfl⟩
        · simp [pickLater, hle]
        · intro u' hu'
          obtain rfl : u = u' := Option.some.inj hu'
          exact hle
      · refine ⟨u, ?_, le_of_lt (lt_of_not_le hle), ?_, Or.inr rfl⟩
        · simp [pickLater, hle]
        · intro u' hu'
          obtain rfl : u = u' := Option.some.inj hu'
          exact le_refl _

/-- A fold of `pickLater` returns a workout from the list (or the
initial accumulator) that dominates all creation dates seen. -/
theorem foldl_pickLater_spec (l : List Workout) (a : Option Workout)
    (w : Workout) (h : l.foldl pickLater a = some w) :
    (w ∈ l ∨ a = some w) ∧
    (∀ v ∈ l, v.creation_date ≤ w.creation_date) ∧
    (∀ v, a = some v → v.creation_date ≤ w.creation_date) := by
  induction l generalizing a with
  | nil =>
      rw [List.foldl_nil] at h
      refine ⟨Or.inr h, ?_, ?_⟩
      · intro v hv
        cases hv
      · intro v hv
        rw [h] at hv
        obtain rfl : w = v := Option.some.inj hv
        exact le_refl _
  | cons x xs ih =>
      rw [List.foldl_cons] at h
      obtain ⟨h1, h2, h3⟩ := ih (pickLater a x) h
      obtain ⟨v, hv, hxv, hav, hor⟩ := pickLater_dominates a x
      have hvw : v.creation_date ≤ w.creation_date := h3 v hv
      refine ⟨?_, ?_, ?_⟩
      · rcases h1 with hmem | hacc
        · exact Or.inl (List.mem_cons_of_mem x hmem)
        · rw [hv] at hacc
          obtain rfl : v = w := Option.some.inj hacc
          rcases hor with rfl | ha
          · exact Or.inl (List.mem_cons_self _ _)
          · exact Or.inr ha
      · intro v' hv'
        rcases List.mem_cons.mp hv' with rfl | hmem
        · exact le_trans hxv hvw
        · exact h2 v' hmem
      · intro u hu
        exact le_trans (hav u hu) hvw

/-- The fallback workout, when it exists, is a standalone workout of
the user with the greatest creation date among those. -/
theorem fallbackWorkout_spec (db : List ScheduleRow) (ws : List Workout)
    (u : Nat) (w : Workout) (h : fallbackWorkout db ws u = some w) :
    w ∈ ws ∧ w.user = u ∧ isStandalone db w ∧
      ∀ v ∈ ws, v.user = u → isStandalone db v →
        v.creation_date ≤ w.creation_date := by
  unfold fallbackWorkout mostRecent at h
  obtain ⟨h1, h2, _⟩ := foldl_pickLater_spec _ none w h
  have hmem : w ∈ ws.filter (fun w => w.user = u ∧ isStandalone db w) := by
    rcases h1 with hmem | hacc
    · exact hmem
    · cases hacc
  rw [List.mem_filter] at hmem
  obtain ⟨hw, hp⟩ := hmem
  rw [decide_eq_true_eq] at hp
  refine ⟨hw, hp.1, hp.2, ?_⟩
  intro v hv hvu hvs
  exact h2 v (List.mem_filter.mpr ⟨hv, by rw [decide_eq_true_eq]; exact ⟨hvu, hvs⟩⟩)

/-- C8: `get_current_workout` returns the active schedule's resolved
step's workout together with that schedule when one resolves;
otherwise it falls back to the user's most recently created standalone
workout (with no schedule); and with no active schedule and no
standalone workout it returns (none, none). -/
theorem get_current_workout_spec (db : List ScheduleRow) (ws : List Workout)
    (u : Nat) (asOf : Int) :
    (∀ sch step, activeSchedule db u = some sch →
      get_current_scheduled_workout sch asOf = some step →
      get_current_workout db ws u asOf = (some step.workout, some sch)) ∧
    (∀ sch, activeSchedule db u = some sch →
      get_current_scheduled_workout sch asOf = none →
      get_current_workout db ws u asOf =
        ((fallbackWorkout db ws u).map (fun w => w.id), none)) ∧
    (activeSchedule db u = none →
      get_current_workout db ws u asOf =
        ((fallbackWorkout db ws u).map (fun w => w.id), none)) ∧
    (activeSchedule db u = none → fallbackWorkout db ws u = none →
      get_current_workout db ws u asOf = (none, none)) ∧
    (∀ w, fallbackWorkout db ws u = some w →
      w ∈ ws ∧ w.user = u ∧ isStandalone db w ∧
        ∀ v ∈ ws, v.user = u → isStandalone db v →
          v.creation_date ≤ w.creation_date) := by
  refine ⟨?_, ?_, ?_, ?_, fun w h => fallbackWorkout_spec db ws u w h⟩
  · intro sch step h1 h2
    simp [get_current_workout, h1, h2]
  · intro sch h1 h2
    simp [get_current_workout, h1, h2]
  · intro h1
    simp [get_current_workout, h1]
  · intro h1 h2
    simp [get_current_workout, h1, h2]

/-- C8 witness: a user with no schedules and no workouts gets
(none, none). -/
theorem get_current_workout_spec_witness :
    activeSchedule [] 2 = none ∧ fallbackWorkout [] [] 2 = none ∧
    get_current_workout [] [] 2 0 = (none, none) :=
  ⟨rfl, rfl, (get_current_workout_spec [] [] 2 0).2.2.2.1 rfl rfl⟩

/-! ## Claim theorems: the log views -/

/-- C9: the add view's session handling never creates a second
`WorkoutSession` for the same user and date: when one exists for the
submitted date it is updated in place (same table length, same number
of matching rows); a new session — with that date, user and the day's
workout — is created only when none exists; and the at-most-one
invariant is preserved. -/
theorem add_view_session_unique (sessions : List WorkoutSession) (u : Nat)
    (logDate : Int) (dayWorkout : Nat) (f : SessionFormData) :
    (sessions.any (fun s => s.user = u ∧ s.date = logDate) = true →
      (addViewSaveSession sessions u logDate dayWorkout f).length =
        sessions.length ∧
      (addViewSaveSession sessions u logDate dayWorkout f).countP
          (fun s => s.user = u ∧ s.date = logDate) =
        sessions.countP (fun s => s.user = u ∧ s.date = logDate)) ∧
    (sessions.any (fun s => s.user = u ∧ s.date = logDate) = false →
      addViewSaveSession sessions u logDate dayWorkout f =
        sessions ++
          [{ user := u, date := logDate, workout := dayWorkout,
             impression := f.impression, notes := f.notes }] ∧
      (addViewSaveSession sessions u logDate dayWorkout f).countP
          (fun s => s.user = u ∧ s.date = logDate) = 1) ∧
    (sessions.countP (fun s => s.user = u ∧ s.date = logDate) ≤ 1 →
      (addViewSaveSession sessions u logDate dayWorkout f).countP
          (fun s => s.user = u ∧ s.date = logDate) ≤ 1) := by
  have hmap : sessions.any (fun s => s.user = u ∧ s.date = logDate) = true →
      addViewSaveSession sessions u logDate dayWorkout f =
        sessions.map (fun s =>
          if s.user = u ∧ s.date = logDate then applyForm f s else s) := by
    intro h
    unfold addViewSaveSession
    rw [if_pos h]
  have happ : sessions.any (fun s => s.user = u ∧ s.date = logDate) = false →
      addViewSaveSession sessions u logDate dayWorkout f =
        sessions ++
          [{ user := u, date := logDate, workout := dayWorkout,
             impression := f.impression, notes := f.notes }] := by
    intro h
    unfold addViewSaveSession
    rw [if_neg (by rw [h]; exact Bool.false_ne_true)]
  have hzero : sessions.any (fun s => s.user = u ∧ s.date = logDate) = false →
      sessions.countP (fun s => s.user = u ∧ s.date = logDate) = 0 := by
    intro h
    exact List.countP_eq_zero.mpr (List.any_eq_false.mp h)
  have hcount : sessions.any (fun s => s.user = u ∧ s.date = logDate) = true →
      (addViewSaveSession sessions u logDate dayWorkout f).countP
          (fun s => s.user = u ∧ s.date = logDate) =
        sessions.countP (fun s => s.user = u ∧ s.date = logDate) := by
    intro h
    rw [hmap h, List.countP_map]
    refine List.countP_congr ?_
    intro s _
    by_cases hp : s.user = u ∧ s.date = logDate
    · simp [Function.comp, hp, applyForm]
    · simp [Function.comp, hp]
  refine ⟨?_, ?_, ?_⟩
  · intro h
    exact ⟨by rw [hmap h]; exact List.length_map _ _, hcount h⟩
  · intro h
    refine ⟨happ h, ?_⟩
    rw [happ h, List.countP_append, hzero h]
    simp [List.countP_cons]
  · intro hle
    by_cases h : sessions.any (fun s => s.user = u ∧ s.date = logDate) = true
    · rw [hcount h]
      exact hle
    · have hf : sessions.any (fun s => s.user = u ∧ s.date = logDate)
          = false := by
        cases hb : sessions.any (fun s => s.user = u ∧ s.date = logDate)
        · rfl
        · exact absurd hb h
      rw [happ hf, List.countP_append, hzero hf]
      simp [List.countP_cons]

/-- C9 witness: adding a log on a date with no session for the user
creates exactly one session for that user and date. -/
theorem add_view_session_unique_witness :
    ([] : List WorkoutSession).any
        (fun s => s.user = 2 ∧ s.date = 5) = false ∧
    addViewSaveSession [] 2 5 9 ⟨Impression.good, "ok"⟩ =
      [{ user := 2, date := 5, workout := 9, impression := Impression.good,
         notes := "ok" }] ∧
    (addViewSaveSession [] 2 5 9 ⟨Impression.good, "ok"⟩).countP
        (fun s => s.user = 2 ∧ s.date = 5) = 1 :=
  ⟨rfl,
    ((add_view_session_unique [] 2 5 9 ⟨Impression.good, "ok"⟩).2.1 rfl).1,
    ((add_view_session_unique [] 2 5 9 ⟨Impression.good, "ok"⟩).2.1 rfl).2⟩

/-- The entries of one grouping step keep the session-or-neutral
impression invariant. -/
theorem calendarStep_inv (sessions : List WorkoutSession)
    (m : List (Int × DayEntry)) (log : WorkoutLog)
    (hm : ∀ p ∈ m, p.2.impression =
      (match get_workout_session sessions p.2.log with
        | some s => s.impression
        | none => Impression.neutral)) :
    ∀ p ∈ calendarStep sessions m log, p.2.impression =
      (match get_workout_session sessions p.2.log with
        | some s => s.impression
        | none => Impression.neutral) := by
  intro p hp
  unfold calendarStep dictUpsert at hp
  set v : DayEntry :=
    { impression :=
        (match get_workout_session sessions log with
          | some s => s.impression
          | none => Impression.neutral),
      log := log } with hv
  have hvinv : v.impression =
      (match get_workout_session sessions v.log with
        | some s => s.impression
        | none => Impression.neutral) := by
    rw [hv]
  by_cases hc : m.any (fun q => q.1 = civilDayOfMonth log.date) = true
  · rw [if_pos hc] at hp
    obtain ⟨q, hq, rfl⟩ := List.mem_map.mp hp
    by_cases he : q.1 = civilDayOfMonth log.date
    · rw [if_pos he]
    · rw [if_neg he]
      exact hm q hq
  · rw [if_neg hc] at hp
    rcases List.mem_append.mp hp with hmem | hmem
    · exact hm p hmem
    · rw [List.mem_singleton] at hmem
      subst hmem
      exact hvinv

/-- The invariant holds of the whole grouping fold. -/
theorem foldl_calendarStep_inv (sessions : List WorkoutSession)
    (logs : List WorkoutLog) (m : List (Int × DayEntry))
    (hm : ∀ p ∈ m, p.2.impression =
      (match get_workout_session sessions p.2.log with
        | some s => s.impression
        | none => Impression.neutral)) :
    ∀ p ∈ logs.foldl (calendarStep sessions) m, p.2.impression =
      (match get_workout_session sessions p.2.log with
        | some s => s.impression
        | none => Impression.neutral) := by
  induction logs generalizing m with
  | nil =>
      rw [List.foldl_nil]
      exact hm
  | cons log rest ih =>
      rw [List.foldl_cons]
      exact ih _ (calendarStep_inv sessions m log hm)

/-- C10: in the calendar view, every day whose displayed log has no
associated workout session carries the neutral impression; a day is
marked good or bad only when its log's session records that
impression; and the day cell's background class is `btn-warning` for
neutral, `btn-danger` for bad and `btn-success` for good. -/
theorem calendar_neutral_default (sessions : List WorkoutSession)
    (logs : List WorkoutLog) :
    (∀ k e, (k, e) ∈ buildLogsFiltered sessions logs →
      (get_workout_session sessions e.log = none →
        e.impression = Impression.neutral) ∧
      (∀ s, get_workout_session sessions e.log = some s →
        e.impression = s.impression)) ∧
    backgroundCss Impression.neutral = "btn-warning" ∧
    backgroundCss Impression.bad = "btn-danger" ∧
    backgroundCss Impression.good = "btn-success" := by
  refine ⟨?_, rfl, rfl, rfl⟩
  intro k e hmem
  have hinv := foldl_calendarStep_inv sessions logs []
    (by intro p hp; cases hp) (k, e) hmem
  constructor
  · intro hnone
    rw [hnone] at hinv
    exact hinv
  · intro s hsome
    rw [hsome] at hinv
    exact hinv

/-- C10 witness: a concrete month with one log and no sessions shows
the neutral impression for that day. -/
theorem calendar_neutral_default_witness :
    ((3 : Int), (⟨Impression.neutral, ⟨2, 2, 9, 4⟩⟩ : DayEntry)) ∈
      buildLogsFiltered [] [⟨2, 2, 9, 4⟩] ∧
    get_workout_session [] ⟨2, 2, 9, 4⟩ = none ∧
    (⟨Impression.neutral, ⟨2, 2, 9, 4⟩⟩ : DayEntry).impression =
      Impression.neutral :=
  ⟨by decide, rfl,
    ((calendar_neutral_default [] [⟨2, 2, 9, 4⟩]).1 3
      ⟨Impression.neutral, ⟨2, 2, 9, 4⟩⟩ (by decide)).1 rfl⟩

end Wger
